import Mathlib

/-!
Verification of the semantic-action layer of the `Compiler-Design-PBL`
front end (file `2. AST/y.tab.c`): the stack-driven AST builder
(`create_node`, `push_tree`, `pop_tree`), the preorder serializer
(`preorder` into the global `preBuf`), the scope-aware symbol table
(`checksym`, `addInt`, `addFloat`, `addChar`, `addfunc`, the
scope-closing action of `statement: compound_statement`, the
`init_declarator` action), and the division-by-zero fallback of the
`multiplicative_expression '/' unary_expression` action.

Machine floats (`yylval.fval`, the `%union` `float` members) are
modelled as rationals; none of the verified properties depends on
IEEE rounding.  C `NULL` child pointers are modelled by the dedicated
constructor `Tree.nil`.
-/

namespace PBL

/-- AST node of the builder: C struct `Node` with `token` plus the four
child pointers `left`, `right`, `val`, `body`.  `nil` models the C
`NULL` pointer, so a leaf is `node tok nil nil nil nil`. -/
inductive Tree where
  | nil : Tree
  | node (token : String) (left right val body : Tree) : Tree
deriving DecidableEq, Repr

/-- `true` exactly on `Tree.nil`, i.e. on the model of a `NULL` child. -/
def Tree.isNil : Tree → Bool
  | .nil => true
  | .node _ _ _ _ _ => false

/-- Number of non-`NULL` children of the root (0 for `nil`). -/
def Tree.childCount : Tree → Nat
  | .nil => 0
  | .node _ l r v b =>
      (if l.isNil then 0 else 1) + (if r.isNil then 0 else 1) +
      (if v.isNil then 0 else 1) + (if b.isNil then 0 else 1)

/-- The construction stack (`tree_stack` rooted at `tree_top`), head =
most recently pushed node.  The sentinel entry that `main` pushes with
`node = NULL` is not part of the model. -/
abbrev TreeStack := List Tree

/-- C `create_node(token, leaf)`.  `leaf == 0`: pop `r` then `l`, build a
binary node; `leaf == 1`: build a childless node; any other flag (the
code passes `3` for function definitions): pop one node as `left`.
Popping an empty stack dereferences `NULL` in C and is modelled as
`none`.  The C code never writes `val`/`body` here (it relies on them
being `NULL`); they are modelled as `nil`. -/
def create_node (token : String) (leaf : Int) (stk : TreeStack) :
    Option TreeStack :=
  if leaf = 0 then
    match stk with
    | r :: l :: rest => some (Tree.node token l r .nil .nil :: rest)
    | _ => none
  else if leaf = 1 then
    some (Tree.node token .nil .nil .nil .nil :: stk)
  else
    match stk with
    | l :: rest => some (Tree.node token l .nil .nil .nil :: rest)
    | _ => none

/-- C `preorder(Node*)` writing into the global `preBuf` by `strcat`:
the buffer is threaded explicitly.  A node with any non-`NULL` child
emits `" ( "`, its token, `" "`, the children in the fixed order
`left`, `right`, `val`, `body`, then `") "`; a childless node emits its
token followed by `" "`; a `NULL` node emits nothing. -/
def preorder : Tree → String → String
  | .nil, buf => buf
  | .node tok l r v b, buf =>
      let internal := !(l.isNil && r.isNil && v.isNil && b.isNil)
      let buf := if internal then buf ++ " ( " else buf
      let buf := buf ++ tok ++ " "
      let buf := preorder l buf
      let buf := preorder r buf
      let buf := preorder v buf
      let buf := preorder b buf
      if internal then buf ++ ") " else buf

/-- `INT_MAX` from `<limits.h>`, the sentinel the division action assigns
on a zero divisor. -/
def intMax : ℚ := 2147483647

/-- The diagnostic printed by the zero-divisor branch of the
`multiplicative_expression '/' unary_expression` action (colour escape
sequences elided). -/
def divWarning (line : Int) : String :=
  "Line:" ++ toString line ++ ": warning: division by zero is undefined"

/-- Result of one run of the `'/'` semantic action: the computed `$$`
value, the construction stack afterwards, and the warnings printed. -/
structure DivResult where
  value : ℚ
  stack : TreeStack
  warnings : List String
deriving DecidableEq, Repr

/-- The `multiplicative_expression '/' unary_expression` action: if the
divisor `$3` is zero, print one warning, set `$$ = INT_MAX` and skip
`create_node("/", 0)`; otherwise divide and build the `/` node. -/
def divAction (line : Int) (lhs rhs : ℚ) (stk : TreeStack) :
    Option DivResult :=
  if rhs = 0 then
    some ⟨intMax, stk, [divWarning line]⟩
  else
    match create_node "/" 0 stk with
    | some stk' => some ⟨lhs / rhs, stk', []⟩
    | none => none

/-- Reduction events driving the AST builder, one per semantic action
that touches the construction stack: `leafNode tok` is
`create_node(tok, 1)`; `binNode tok` is `create_node(tok, 0)` (binary
operators, assignment, `while`, `stmt`, the unary-operator and postfix
`++`/`--` actions); `funcNode tok` is `create_node(tok, 3)` (function
definitions); `ifThenNode`, `ifElseNode`, `forNode` are the inline
multi-child constructions of the `if`/ternary/`for` actions; and
`divNode d` is the `'/'` action with divisor value `d`. -/
inductive Event where
  | leafNode (tok : String)
  | binNode (tok : String)
  | funcNode (tok : String)
  | ifThenNode
  | ifElseNode
  | forNode
  | divNode (d : ℚ)
deriving DecidableEq, Repr

/-- Effect of one reduction event on the construction stack, as the code
performs it (`divNode` with divisor `0` skips node creation). -/
def step : Event → TreeStack → Option TreeStack
  | .leafNode tok, s => create_node tok 1 s
  | .binNode tok, s => create_node tok 0 s
  | .funcNode tok, s => create_node tok 3 s
  | .ifThenNode, s =>
      match s with
      | thenS :: cond :: rest => some (.node "if" cond thenS .nil .nil :: rest)
      | _ => none
  | .ifElseNode, s =>
      match s with
      | elseS :: thenS :: cond :: rest =>
          some (.node "if" cond thenS elseS .nil :: rest)
      | _ => none
  | .forNode, s =>
      match s with
      | body :: incr :: cond :: init :: rest =>
          some (.node "for" init cond incr body :: rest)
      | _ => none
  | .divNode d, s => if d = 0 then some s else create_node "/" 0 s

/-- Effect of one reduction event under the spec's discipline, where a
division reduction always pops two operands and pushes the `/` node
(divisor ignored). -/
def specStep : Event → TreeStack → Option TreeStack
  | .divNode _, s => create_node "/" 0 s
  | e, s => step e s

/-- Run the builder over a whole reduction-event stream. -/
def run : List Event → TreeStack → Option TreeStack
  | [], s => some s
  | e :: es, s =>
      match step e s with
      | some s' => run es s'
      | none => none

/-- Run the spec's discipline over a whole reduction-event stream. -/
def specRun : List Event → TreeStack → Option TreeStack
  | [], s => some s
  | e :: es, s =>
      match specStep e s with
      | some s' => specRun es s'
      | none => none

/-- A reduction-event stream is the image of a syntactically well-formed
program iff, with every reduction taking its normal pop/push effect, it
leaves exactly one node on an initially empty stack. -/
def wellFormedEvents (evs : List Event) : Prop :=
  ∃ t, specRun evs [] = some [t]

/-- No division reduction in the stream has divisor zero. -/
def noDivZero (evs : List Event) : Prop :=
  ∀ d : ℚ, Event.divNode d ∈ evs → d ≠ 0

/-- The value member of a symbol: the C union `{float f; int i; char c;}`
tagged by which member was last written; `undef` models the union before
any write (`addsymbol` never initialises it). -/
inductive CValue where
  | intV (n : Int)
  | floatV (q : ℚ)
  | charV (n : Int)
  | undef
deriving DecidableEq, Repr

/-- Symbol-table record: C `struct node` (the `link` pointer is replaced
by list order, which is declaration order). -/
structure Sym where
  token : String
  name : String
  dtype : Int
  scope : Int
  lineno : Int
  valid : Bool
  val : CValue
deriving DecidableEq, Repr

/-- C `addsymbol`: a fresh record with `dtype = -1` (untyped), the
current scope and line, `valid = 1`.  `token` and `val` are never
written by `addsymbol`; they are modelled as `""` and `undef`. -/
def addsymbol (vname : String) (scope line : Int) : Sym :=
  ⟨"", vname, -1, scope, line, true, .undef⟩

/-- C `addInt`: types the symbol as `int` with the given value only when
it is still untyped (`dtype == -1`); otherwise the call changes
nothing. -/
def addInt (t : Sym) (type : Int) (v : Int) : Sym :=
  if t.dtype = -1 then
    { t with dtype := type, val := .intV v, token := "identifier" }
  else t

/-- C `addFloat`: same guard, stores a float value. -/
def addFloat (t : Sym) (type : Int) (v : ℚ) : Sym :=
  if t.dtype = -1 then
    { t with dtype := type, val := .floatV v, token := "identifier" }
  else t

/-- C `addChar`: same guard, stores a char value. -/
def addChar (t : Sym) (type : Int) (v : Int) : Sym :=
  if t.dtype = -1 then
    { t with dtype := type, val := .charV v, token := "identifier" }
  else t

/-- C `addfunc`: same guard; stores value `0` in the int member and the
given token (the callers pass `"function"`). -/
def addfunc (t : Sym) (type : Int) (s : String) : Sym :=
  if t.dtype = -1 then
    { t with dtype := type, val := .intV 0, token := s }
  else t

/-- The scan loop of C `checksym` over the linked list, carrying the
global `check_un` as it mutates along the scan.  Returns the index of
the entry an early `return` would yield (`none` when the loop falls
through) together with the final `check_un` value.  The branches mirror
the source: an entry of the sought name that is valid at a scope
strictly greater (inner), equal, or strictly smaller (outer) than the
current one returns immediately — the outer case setting `check_un = 1`
— while an invalid inner entry sets `check_un = 0` and the scan
continues. -/
def scanSym (vname : String) (scope : Int) : List Sym → Int → Option Nat × Int
  | [], cu => (none, cu)
  | e :: rest, cu =>
      if e.name = vname then
        if e.scope > scope ∧ e.valid then (some 0, cu)
        else if e.scope = scope ∧ e.valid then (some 0, cu)
        else if e.scope < scope ∧ e.valid then (some 0, 1)
        else
          let cu' := if e.scope > scope ∧ ¬e.valid then 0 else cu
          let res := scanSym vname scope rest cu'
          (res.1.map (· + 1), res.2)
      else
        let res := scanSym vname scope rest cu
        (res.1.map (· + 1), res.2)

/-- C `checksym(vname)`: with an empty table, allocate a fresh untyped
symbol; otherwise scan; when the scan falls through, append a fresh
untyped symbol at the current scope.  Returns the table afterwards, the
index of the returned record, and the final `check_un`. -/
def checksym (vname : String) (scope line cu : Int) (table : List Sym) :
    List Sym × Nat × Int :=
  match table with
  | [] => ([addsymbol vname scope line], 0, cu)
  | _ :: _ =>
      match scanSym vname scope table cu with
      | (some i, cu') => (table, i, cu')
      | (none, cu') =>
          (table ++ [addsymbol vname scope line], table.length, cu')

/-- Index of the first record in declaration order that has the sought
name and is still valid (any scope). -/
def firstValidMatch (vname : String) : List Sym → Option Nat
  | [] => none
  | e :: rest =>
      if e.name = vname ∧ e.valid then some 0
      else (firstValidMatch vname rest).map (· + 1)

/-- Modelled from the spec: `resolveOrDeclare(name)` as §4.1 words it —
the four outcomes in the spec's stated precedence: (1) a valid symbol at
a scope strictly outer than current is returned with the inherited flag
set; (2) a valid symbol at exactly the current scope is returned; (3) a
no-longer-valid symbol at a strictly inner scope is treated as a fresh
declaration; (4) otherwise a new untyped symbol at the current scope is
appended and returned.  Stated for comparison with `checksym`. -/
def specResolveOrDeclare (vname : String) (scope line cu : Int)
    (table : List Sym) : List Sym × Nat × Int :=
  match table.findIdx? (fun e => e.name = vname ∧ e.valid ∧ e.scope < scope) with
  | some i => (table, i, 1)
  | none =>
      match table.findIdx? (fun e => e.name = vname ∧ e.valid ∧ e.scope = scope) with
      | some i => (table, i, cu)
      | none =>
          (table ++ [addsymbol vname scope line], table.length, cu)

/-- C truncation of a float to `int` (toward zero). -/
def cTrunc (q : ℚ) : Int := if 0 ≤ q then ⌊q⌋ else -⌊-q⌋

/-- Narrowing-conversion warning text of the declaration/assignment
actions. -/
def narrowWarning (line : Int) (src dst : String) : String :=
  "Line:" ++ toString line ++ ": warning: implicit conversion from '" ++
    src ++ "' to '" ++ dst ++ "'"

/-- Redefinition error text. -/
def redefError (line : Int) (name : String) : String :=
  "Line:" ++ toString line ++ ": error: redefinition of '" ++ name ++ "'"

/-- The typing dispatch shared by the branches of the `init_declarator`
action: on `datatype` 0/1/2 apply `addInt`/`addFloat`/`addChar` (with
C's float-to-int truncation where the target is integral) and emit the
narrowing warning the source prints for the corresponding `assigntype`.
Returns the updated symbol and the warnings. -/
def declTypeDispatch (s : Sym) (datatype assigntype : Int) (v : ℚ)
    (line : Int) : Sym × List String :=
  if datatype = 0 then
    (addInt s 0 (cTrunc v),
     if assigntype = 1 then [narrowWarning line "float" "int"] else [])
  else if datatype = 1 then
    (addFloat s 1 v,
     if assigntype = 2 then [narrowWarning line "char" "float"] else [])
  else if datatype = 2 then
    (addChar s 2 (cTrunc v),
     if assigntype = 1 then [narrowWarning line "float" "char"] else [])
  else (s, [])

/-- Result of the `init_declarator: IDENTIFIER '=' assignment_expression`
action on the symbol table: updated table, errors, warnings. -/
structure DeclResult where
  table : List Sym
  errors : List String
  warnings : List String
deriving DecidableEq, Repr

/-- The `init_declarator: IDENTIFIER '=' assignment_expression` action
(grammar case 38) restricted to its symbol-table/diagnostic effect; its
`create_node` calls are covered by the event semantics (`leafNode` for
the mid-rule action, `binNode "="`).  `i` is the index returned by
`checksym` for the IDENTIFIER.  Branches as in the source: a typed,
valid symbol of an outer scope is shadowed by appending a fresh record
which is then typed; any other already-typed symbol raises a
redefinition error; an untyped symbol is typed in place. -/
def init_declarator (i : Nat) (datatype assigntype : Int) (v : ℚ)
    (scope line : Int) (table : List Sym) : DeclResult :=
  match table.get? i with
  | none => ⟨table, [], []⟩
  | some s =>
      if s.dtype ≠ -1 ∧ s.scope < scope ∧ s.valid then
        let fresh := addsymbol s.name scope line
        let typed := declTypeDispatch fresh datatype assigntype v line
        ⟨table ++ [typed.1], [], typed.2⟩
      else if s.dtype ≠ -1 then
        ⟨table, [redefError line s.name], []⟩
      else
        let typed := declTypeDispatch s datatype assigntype v line
        ⟨table.set i typed.1, [], typed.2⟩

/-- The scope-closing loop of the `statement: compound_statement` action:
every valid record whose scope equals the closing depth is invalidated;
records at other depths are untouched.  (The accompanying `scope--` is
the caller's change of the current depth.) -/
def closeScope (scope : Int) (table : List Sym) : List Sym :=
  table.map fun e =>
    if e.scope = scope ∧ e.valid then { e with valid := false } else e

/-- Modelled from the spec: the lexer (not part of `src/`) increments the
global `scope` on every `'{'` (block entry); glossary: "Scope depth:
integer nesting level of block structure; increases on block entry". -/
def openScope (scope : Int) : Int := scope + 1

section Scenario

/-!  Trace of the spec scenario `int a = 5; { int a = 6; }`: the lexer
(missing from `src/`, modelled from the spec) calls `checksym` on every
IDENTIFIER and bumps `scope` at `'{'`; the declaration actions and the
scope-closing action are the `src/` code modelled above.  Initial
`check_un = 0`, outer scope depth 0. -/

/-- Scenario: table and `checksym` result for the first `a`. -/
def scnRes1 : List Sym × Nat × Int := checksym "a" 0 1 0 []

/-- Scenario: effect of `int a = 5;` (datatype `int`, literal value 5,
`assigntype` 0 set by the integer literal). -/
def scnDec1 : DeclResult := init_declarator scnRes1.2.1 0 0 5 0 1 scnRes1.1

/-- Scenario: scope depth inside the block. -/
def scnInner : Int := openScope 0

/-- Scenario: `checksym` for the second `a`, inside the block. -/
def scnRes2 : List Sym × Nat × Int :=
  checksym "a" scnInner 2 scnRes1.2.2 scnDec1.table

/-- Scenario: effect of `int a = 6;` inside the block. -/
def scnDec2 : DeclResult := init_declarator scnRes2.2.1 0 0 6 scnInner 2 scnRes2.1

/-- Scenario: resolving `a` inside the block, after the inner
declaration. -/
def scnMid : List Sym × Nat × Int :=
  checksym "a" scnInner 2 scnRes2.2.2 scnDec2.table

/-- Scenario: the table after `'}'` closes the inner scope. -/
def scnClosed : List Sym := closeScope scnInner scnDec2.table

/-- Scenario: resolving `a` after the block has closed (depth back to
0). -/
def scnAfter : List Sym × Nat × Int := checksym "a" 0 3 scnMid.2.2 scnClosed

end Scenario

/-- The event stream of the statement `if (a < b) x = 1; else x = 2;`
(with `a`, `b`, `x` declared): leaves pushed by the identifier/literal
actions, `<` and `=` by the binary actions, then the if-else
construction. -/
def ifEvs : List Event :=
  [.leafNode "a", .leafNode "b", .binNode "<",
   .leafNode "x", .leafNode "1", .binNode "=",
   .leafNode "x", .leafNode "2", .binNode "=", .ifElseNode]

/-- The tree those events build. -/
def ifTree : Tree :=
  .node "if"
    (.node "<" (.node "a" .nil .nil .nil .nil) (.node "b" .nil .nil .nil .nil) .nil .nil)
    (.node "=" (.node "x" .nil .nil .nil .nil) (.node "1" .nil .nil .nil .nil) .nil .nil)
    (.node "=" (.node "x" .nil .nil .nil .nil) (.node "2" .nil .nil .nil .nil) .nil .nil)
    .nil

/-- The event stream of `x = 10 / 0;` (with `x` a declared int): three
leaves, the division reduction with divisor value `0`, then the
assignment. -/
def divProg : List Event :=
  [.leafNode "x", .leafNode "10", .leafNode "0", .divNode 0, .binNode "="]

/-! ## Helper lemmas -/

theorem Tree.isNil_iff {t : Tree} : t.isNil = true ↔ t = .nil := by
  cases t <;> simp [Tree.isNil]

theorem Tree.isNil_nil : Tree.nil.isNil = true := rfl

/-- The text `preorder` appends for one (sub)tree, independent of the
buffer: the pure serialization. -/
def preorderStr : Tree → String
  | .nil => ""
  | .node tok l r v b =>
      let internal := !(l.isNil && r.isNil && v.isNil && b.isNil)
      (if internal then " ( " else "") ++ (tok ++ " ") ++
        preorderStr l ++ preorderStr r ++ preorderStr v ++ preorderStr b ++
        (if internal then ") " else "")

/-- `preorder` only appends: the buffer afterwards is the incoming buffer
followed by the pure serialization of the tree. -/
theorem preorder_eq_append : ∀ (t : Tree) (buf : String),
    preorder t buf = buf ++ preorderStr t
  | .nil, buf => by simp [preorder, preorderStr]
  | .node tok l r v b, buf => by
      have ihl := preorder_eq_append l
      have ihr := preorder_eq_append r
      have ihv := preorder_eq_append v
      have ihb := preorder_eq_append b
      simp only [preorder, preorderStr]
      by_cases h : (l.isNil && r.isNil && v.isNil && b.isNil) = true
      · simp only [h, Bool.not_true, Bool.false_eq_true, if_false, if_true,
          ihl, ihr, ihv, ihb, String.append_assoc, String.append_empty,
          String.empty_append]
      · simp only [Bool.not_eq_true] at h
        simp only [h, Bool.not_false, if_true, if_false,
          ihl, ihr, ihv, ihb, String.append_assoc, String.append_empty,
          String.empty_append]

/-- A step whose event is not a zero-divisor division has the spec's
pop/push effect. -/
theorem step_eq_specStep (e : Event) (s : TreeStack)
    (h : ∀ d : ℚ, e = .divNode d → d ≠ 0) : step e s = specStep e s := by
  cases e with
  | divNode d =>
      have hd : d ≠ 0 := h d rfl
      simp [step, specStep, hd]
  | leafNode tok => rfl
  | binNode tok => rfl
  | funcNode tok => rfl
  | ifThenNode => rfl
  | ifElseNode => rfl
  | forNode => rfl

/-- Over a stream with no zero-divisor division, the code's run and the
spec's run coincide. -/
theorem run_eq_specRun : ∀ (evs : List Event) (s : TreeStack),
    noDivZero evs → run evs s = specRun evs s
  | [], _, _ => rfl
  | e :: es, s, h => by
      have he : step e s = specStep e s :=
        step_eq_specStep e s fun d hd => h d (hd ▸ List.mem_cons_self e es)
      have hes : noDivZero es := fun d hd => h d (List.mem_cons_of_mem e hd)
      simp only [run, specRun, ← he]
      cases hstep : step e s with
      | none => rfl
      | some s' => exact run_eq_specRun es s' hes

/-- The returned component of the `checksym` scan is the first valid
name match, whatever `check_un` value is carried in. -/
theorem scanSym_found (vname : String) (scope : Int) :
    ∀ (tb : List Sym) (cu : Int),
      (scanSym vname scope tb cu).1 = firstValidMatch vname tb
  | [], _ => rfl
  | e :: rest, cu => by
      by_cases hn : e.name = vname
      · by_cases hv : e.valid
        · rcases lt_trichotomy e.scope scope with hlt | heq | hgt
          · simp [scanSym, firstValidMatch, hn, hv, lt_asymm hlt,
              ne_of_lt hlt, hlt]
          · simp [scanSym, firstValidMatch, hn, hv, heq]
          · simp [scanSym, firstValidMatch, hn, hv, hgt]
        · have hv' : e.valid = false := by simpa using hv
          simp [scanSym, firstValidMatch, hn, hv',
            scanSym_found vname scope rest]
      · simp [scanSym, firstValidMatch, hn, scanSym_found vname scope rest]

/-- When the first valid name match sits at a strictly outer scope, the
scan returns `check_un = 1`, whatever value was carried in. -/
theorem scanSym_outer_flag (vname : String) (scope : Int) :
    ∀ (tb : List Sym) (cu : Int) (i : Nat) (e : Sym),
      firstValidMatch vname tb = some i → tb.get? i = some e →
      e.scope < scope → (scanSym vname scope tb cu).2 = 1
  | [], _, _, _, hfm, _, _ => by simp [firstValidMatch] at hfm
  | f :: rest, cu, i, e, hfm, hget, hsc => by
      by_cases hm : f.name = vname ∧ f.valid
      · have h0 : firstValidMatch vname (f :: rest) = some 0 := by
          simp [firstValidMatch, hm]
        obtain rfl : i = 0 := by
          have := hfm.symm.trans h0
          simpa using this
        have he : e = f := by simpa using hget.symm
        subst he
        simp [scanSym, hm.1, hm.2, lt_asymm hsc, ne_of_lt hsc, hsc]
      · have hrest : ∃ j, firstValidMatch vname rest = some j ∧ i = j + 1 := by
          rcases hj : firstValidMatch vname rest with _ | j
          · simp [firstValidMatch, hm, hj] at hfm
          · refine ⟨j, rfl, ?_⟩
            simp [firstValidMatch, hm, hj] at hfm
            omega
        obtain ⟨j, hj, rfl⟩ := hrest
        have hgr : rest.get? j = some e := by simpa using hget
        by_cases hn : f.name = vname
        · have hv : f.valid = false := by
            rcases Bool.eq_false_or_eq_true f.valid with h | h
            · exact absurd ⟨hn, by simpa using h⟩ hm
            · exact h
          have h1 : ¬(f.scope > scope ∧ f.valid = true) := by simp [hv]
          have h2 : ¬(f.scope = scope ∧ f.valid = true) := by simp [hv]
          have h3 : ¬(f.scope < scope ∧ f.valid = true) := by simp [hv]
          simp only [scanSym, if_pos hn, if_neg h1, if_neg h2, if_neg h3]
          exact scanSym_outer_flag vname scope rest _ j e hj hgr hsc
        · simp only [scanSym, if_neg hn]
          exact scanSym_outer_flag vname scope rest cu j e hj hgr hsc

/-! ## Claims -/

/-- C3: for every stack holding at least two nodes, building a binary
node pops two nodes in LIFO order — the most recently pushed node (`a`)
becomes the right-hand child `child[1]` and the node pushed before it
(`b`) becomes the left-hand child `child[0]` of the newly pushed
node. -/
theorem create_node_binary_lifo (tok : String) (a b : Tree)
    (rest : TreeStack) :
    create_node tok 0 (a :: b :: rest) =
      some (Tree.node tok b a .nil .nil :: rest) := by
  simp [create_node]

/-- C6: for every symbol whose kind is already set away from untyped
(`dtype ≠ -1`), each of `addInt`, `addFloat`, `addChar` and `addfunc`
leaves the symbol — in particular its kind and its value — entirely
unchanged. -/
theorem typed_symbol_immutable (s : Sym) (ty n : Int) (q : ℚ) (c : Int)
    (str : String) (h : s.dtype ≠ -1) :
    addInt s ty n = s ∧ addFloat s ty q = s ∧ addChar s ty c = s ∧
      addfunc s ty str = s := by
  simp [addInt, addFloat, addChar, addfunc, h]

/-- Witness for C6 at a concrete already-typed symbol. -/
theorem typed_symbol_immutable_witness :
    (Sym.dtype ⟨"identifier", "a", 0, 0, 1, true, .intV 5⟩ ≠ -1) ∧
      (addInt ⟨"identifier", "a", 0, 0, 1, true, .intV 5⟩ 1 9 =
        ⟨"identifier", "a", 0, 0, 1, true, .intV 5⟩ ∧
       addFloat ⟨"identifier", "a", 0, 0, 1, true, .intV 5⟩ 1 9 =
        ⟨"identifier", "a", 0, 0, 1, true, .intV 5⟩ ∧
       addChar ⟨"identifier", "a", 0, 0, 1, true, .intV 5⟩ 1 9 =
        ⟨"identifier", "a", 0, 0, 1, true, .intV 5⟩ ∧
       addfunc ⟨"identifier", "a", 0, 0, 1, true, .intV 5⟩ 1 "function" =
        ⟨"identifier", "a", 0, 0, 1, true, .intV 5⟩) :=
  ⟨by decide,
   typed_symbol_immutable ⟨"identifier", "a", 0, 0, 1, true, .intV 5⟩ 1 9 9 9
     "function" (by decide)⟩

/-- C8: for every division whose divisor is zero, the action emits
exactly one division-by-zero warning, computes the sentinel `INT_MAX`
as the expression value, adds no node to the construction stack, and
returns normally (processing continues). -/
theorem div_by_zero_action (line : Int) (lhs : ℚ) (stk : TreeStack) :
    divAction line lhs 0 stk = some ⟨intMax, stk, [divWarning line]⟩ := by
  simp [divAction]

/-- C10: the zero-divisor path of the division reduction pops nothing —
both operand nodes stay on the stack and nothing is pushed — so the
stack ends one entry deeper than after a normal division reduction,
which pops two operands and pushes the `/` node. -/
theorem div_zero_stack_unchanged (line : Int) (lhs rhs : ℚ) (a b : Tree)
    (rest : TreeStack) (h : rhs ≠ 0) :
    divAction line lhs 0 (a :: b :: rest) =
      some ⟨intMax, a :: b :: rest, [divWarning line]⟩ ∧
    divAction line lhs rhs (a :: b :: rest) =
      some ⟨lhs / rhs, Tree.node "/" b a .nil .nil :: rest, []⟩ ∧
    (a :: b :: rest).length =
      (Tree.node "/" b a .nil .nil :: rest).length + 1 := by
  refine ⟨by simp [divAction], ?_, by simp⟩
  simp [divAction, h, create_node]

/-- Witness for C10 with divisor 2 on a concrete two-leaf stack. -/
theorem div_zero_stack_unchanged_witness :
    ((2 : ℚ) ≠ 0) ∧
    divAction 1 10 0 [Tree.node "0" .nil .nil .nil .nil,
        Tree.node "10" .nil .nil .nil .nil] =
      some ⟨intMax, [Tree.node "0" .nil .nil .nil .nil,
        Tree.node "10" .nil .nil .nil .nil], [divWarning 1]⟩ ∧
    divAction 1 10 2 [Tree.node "0" .nil .nil .nil .nil,
        Tree.node "10" .nil .nil .nil .nil] =
      some ⟨10 / 2, [Tree.node "/" (Tree.node "10" .nil .nil .nil .nil)
        (Tree.node "0" .nil .nil .nil .nil) .nil .nil], []⟩ ∧
    ([Tree.node "0" .nil .nil .nil .nil,
        Tree.node "10" .nil .nil .nil .nil] : TreeStack).length =
      ([Tree.node "/" (Tree.node "10" .nil .nil .nil .nil)
        (Tree.node "0" .nil .nil .nil .nil) .nil .nil] : TreeStack).length
        + 1 := by
  have h := div_zero_stack_unchanged 1 10 2
    (Tree.node "0" .nil .nil .nil .nil) (Tree.node "10" .nil .nil .nil .nil)
    [] (by norm_num)
  exact ⟨by norm_num, h.1, h.2.1, h.2.2⟩

/-- C9 counterexample: `preorder` appends into the never-reset global
`preBuf`, so running it a second time on the same tree leaves a buffer
that is not byte-identical to the first run's buffer — serialization is
not idempotent. -/
theorem preorder_rerun_not_idempotent :
    preorder (Tree.node "a" .nil .nil .nil .nil)
        (preorder (Tree.node "a" .nil .nil .nil .nil) "") ≠
      preorder (Tree.node "a" .nil .nil .nil .nil) "" := by
  decide

/-- C9 amended: each run of `preorder` on a fixed tree appends the same
byte sequence — the pure serialization of the tree, independent of the
buffer contents it starts from; the buffer after a rerun is the first
buffer followed by that same byte sequence. -/
theorem preorder_appends_same_bytes (t : Tree) (buf : String) :
    preorder t buf = buf ++ preorder t "" := by
  rw [preorder_eq_append t buf, preorder_eq_append t "", String.empty_append]

/-- C2 counterexample: the preorder serialization of the tree of
`if (a < b) x = 1; else x = 2;` is not the claimed
`( if ( < a b ) ( = x 1 ) ( = x 2 ) )` — the serializer writes `" ( "`
before and `") "` after each internal node and a space after every
label, producing leading/trailing and doubled spaces. -/
theorem preorder_if_scenario_spacing_cex :
    run ifEvs [] = some [ifTree] ∧
    preorder ifTree "" ≠ "( if ( < a b ) ( = x 1 ) ( = x 2 ) )" := by
  decide

/-- C2 amended: the builder turns the reduction events of
`if (a < b) x = 1; else x = 2;` into the if-tree with children in slot
order `left` (condition), `right` (then), `val` (else), and its preorder
serialization — children visited in the fixed order `left`, `right`,
`val`, `body`, each internal node wrapped by `" ( "` and `") "`, each
label followed by one space — is exactly
`" ( if  ( < a b )  ( = x 1 )  ( = x 2 ) ) "`. -/
theorem preorder_if_scenario :
    run ifEvs [] = some [ifTree] ∧
    preorder ifTree "" = " ( if  ( < a b )  ( = x 1 )  ( = x 2 ) ) " := by
  decide

/-- C1 counterexample: the reduction events of the syntactically
well-formed `x = 10 / 0;` (well-formed: under the normal pop/push
discipline they leave exactly one node) do not leave a single node on
the construction stack, because the zero-divisor division skips node
creation: the run ends with two entries. -/
theorem div_zero_breaks_singleton_stack :
    wellFormedEvents divProg ∧ ∀ t : Tree, run divProg [] ≠ some [t] := by
  constructor
  · exact ⟨Tree.node "=" (Tree.node "x" .nil .nil .nil .nil)
      (Tree.node "/" (Tree.node "10" .nil .nil .nil .nil)
        (Tree.node "0" .nil .nil .nil .nil) .nil .nil) .nil .nil,
      by decide⟩
  · intro t h
    rw [show run divProg [] =
        some [Tree.node "=" (Tree.node "10" .nil .nil .nil .nil)
          (Tree.node "0" .nil .nil .nil .nil) .nil .nil,
          Tree.node "x" .nil .nil .nil .nil] from by decide] at h
    simp at h

/-- C1 amended: for every well-formed reduction-event stream that
contains no zero-divisor division, processing all events leaves exactly
one node — the AST root — on the construction stack. -/
theorem no_div_zero_wellformed_singleton (evs : List Event)
    (hnd : noDivZero evs) (hwf : wellFormedEvents evs) :
    ∃ t, run evs [] = some [t] := by
  obtain ⟨t, ht⟩ := hwf
  exact ⟨t, by rw [run_eq_specRun evs [] hnd]; exact ht⟩

/-- Witness for C1 (amended) on the events of `a + b`. -/
theorem no_div_zero_wellformed_singleton_witness :
    noDivZero [Event.leafNode "a", Event.leafNode "b", Event.binNode "+"] ∧
    wellFormedEvents
      [Event.leafNode "a", Event.leafNode "b", Event.binNode "+"] ∧
    ∃ t, run [Event.leafNode "a", Event.leafNode "b", Event.binNode "+"] [] =
      some [t] := by
  have h1 : noDivZero
      [Event.leafNode "a", Event.leafNode "b", Event.binNode "+"] := by
    intro d hd
    simp [noDivZero] at hd
  have h2 : wellFormedEvents
      [Event.leafNode "a", Event.leafNode "b", Event.binNode "+"] :=
    ⟨Tree.node "+" (Tree.node "a" .nil .nil .nil .nil)
      (Tree.node "b" .nil .nil .nil .nil) .nil .nil, by decide⟩
  exact ⟨h1, h2, no_div_zero_wellformed_singleton _ h1 h2⟩

/-- C7 counterexample: `return` is built with the leaf flag
(`create_node("return", 1)`) and so has 0 children, not 1; the postfix
increment is built with the binary flag (`create_node("++", 0)`) and so
pops two stack entries and has 2 children, not 1. -/
theorem node_arity_cex :
    create_node "return" 1 [] =
      some [Tree.node "return" .nil .nil .nil .nil] ∧
    Tree.childCount (Tree.node "return" .nil .nil .nil .nil) = 0 ∧
    create_node "++" 0 [Tree.node "x" .nil .nil .nil .nil,
        Tree.node "q" .nil .nil .nil .nil] =
      some [Tree.node "++" (Tree.node "q" .nil .nil .nil .nil)
        (Tree.node "x" .nil .nil .nil .nil) .nil .nil] ∧
    Tree.childCount (Tree.node "++" (Tree.node "q" .nil .nil .nil .nil)
      (Tree.node "x" .nil .nil .nil .nil) .nil .nil) = 2 := by
  decide

/-- C7 amended: the arity of every node is fixed by the flag of the
construction that builds it — leaf flag (identifiers, literals,
declarations, and also `return`): 0 children; function-definition flag:
exactly 1; binary flag (binary operators, assignment, `while`, `stmt`,
and also the prefix unary operators and postfix `++`/`--`): exactly 2;
`if` without else: 2; `if`/ternary with else: 3; `for`: exactly 4 —
and every slot the construction does not fill is empty. -/
theorem node_arity_by_flag (tok : String) (a b c d : Tree)
    (rest : TreeStack) (ha : a ≠ .nil) (hb : b ≠ .nil) (hc : c ≠ .nil)
    (hd : d ≠ .nil) :
    (create_node tok 1 rest =
        some (Tree.node tok .nil .nil .nil .nil :: rest) ∧
      Tree.childCount (Tree.node tok .nil .nil .nil .nil) = 0) ∧
    (create_node tok 3 (a :: rest) =
        some (Tree.node tok a .nil .nil .nil :: rest) ∧
      Tree.childCount (Tree.node tok a .nil .nil .nil) = 1) ∧
    (create_node tok 0 (a :: b :: rest) =
        some (Tree.node tok b a .nil .nil :: rest) ∧
      Tree.childCount (Tree.node tok b a .nil .nil) = 2) ∧
    (step .ifThenNode (a :: b :: rest) =
        some (Tree.node "if" b a .nil .nil :: rest) ∧
      Tree.childCount (Tree.node "if" b a .nil .nil) = 2) ∧
    (step .ifElseNode (a :: b :: c :: rest) =
        some (Tree.node "if" c b a .nil :: rest) ∧
      Tree.childCount (Tree.node "if" c b a .nil) = 3) ∧
    (step .forNode (a :: b :: c :: d :: rest) =
        some (Tree.node "for" d c b a :: rest) ∧
      Tree.childCount (Tree.node "for" d c b a) = 4) := by
  have ha' : a.isNil = false := by
    rcases Bool.eq_false_or_eq_true a.isNil with h | h
    · exact absurd (Tree.isNil_iff.mp h) ha
    · exact h
  have hb' : b.isNil = false := by
    rcases Bool.eq_false_or_eq_true b.isNil with h | h
    · exact absurd (Tree.isNil_iff.mp h) hb
    · exact h
  have hc' : c.isNil = false := by
    rcases Bool.eq_false_or_eq_true c.isNil with h | h
    · exact absurd (Tree.isNil_iff.mp h) hc
    · exact h
  have hd' : d.isNil = false := by
    rcases Bool.eq_false_or_eq_true d.isNil with h | h
    · exact absurd (Tree.isNil_iff.mp h) hd
    · exact h
  refine ⟨⟨by simp [create_node], by simp [Tree.childCount, Tree.isNil_nil]⟩,
    ⟨by simp [create_node], by simp [Tree.childCount, Tree.isNil_nil, ha']⟩,
    ⟨by simp [create_node],
     by simp [Tree.childCount, Tree.isNil_nil, ha', hb']⟩,
    ⟨by simp [step], by simp [Tree.childCount, Tree.isNil_nil, ha', hb']⟩,
    ⟨by simp [step], by simp [Tree.childCount, Tree.isNil_nil, ha', hb', hc']⟩,
    ⟨by simp [step],
     by simp [Tree.childCount, Tree.isNil_nil, ha', hb', hc', hd']⟩⟩

/-- Witness for C7 (amended) on concrete leaf operands. -/
theorem node_arity_by_flag_witness :
    ((Tree.node "a" .nil .nil .nil .nil ≠ Tree.nil) ∧
     (Tree.node "b" .nil .nil .nil .nil ≠ Tree.nil) ∧
     (Tree.node "c" .nil .nil .nil .nil ≠ Tree.nil) ∧
     (Tree.node "d" .nil .nil .nil .nil ≠ Tree.nil)) ∧
    (create_node "t" 0 [Tree.node "a" .nil .nil .nil .nil,
        Tree.node "b" .nil .nil .nil .nil] =
      some [Tree.node "t" (Tree.node "b" .nil .nil .nil .nil)
        (Tree.node "a" .nil .nil .nil .nil) .nil .nil] ∧
      Tree.childCount (Tree.node "t" (Tree.node "b" .nil .nil .nil .nil)
        (Tree.node "a" .nil .nil .nil .nil) .nil .nil) = 2) ∧
    (step .forNode [Tree.node "a" .nil .nil .nil .nil,
        Tree.node "b" .nil .nil .nil .nil,
        Tree.node "c" .nil .nil .nil .nil,
        Tree.node "d" .nil .nil .nil .nil] =
      some [Tree.node "for" (Tree.node "d" .nil .nil .nil .nil)
        (Tree.node "c" .nil .nil .nil .nil)
        (Tree.node "b" .nil .nil .nil .nil)
        (Tree.node "a" .nil .nil .nil .nil)] ∧
      Tree.childCount (Tree.node "for" (Tree.node "d" .nil .nil .nil .nil)
        (Tree.node "c" .nil .nil .nil .nil)
        (Tree.node "b" .nil .nil .nil .nil)
        (Tree.node "a" .nil .nil .nil .nil)) = 4) := by
  have h := node_arity_by_flag "t" (Tree.node "a" .nil .nil .nil .nil)
    (Tree.node "b" .nil .nil .nil .nil) (Tree.node "c" .nil .nil .nil .nil)
    (Tree.node "d" .nil .nil .nil .nil) [] (by decide) (by decide)
    (by decide) (by decide)
  exact ⟨⟨by decide, by decide, by decide, by decide⟩, h.2.2.1, h.2.2.2.2.2⟩

/-- Symbol-table state with a single still-valid entry for `a` declared
at the strictly inner scope 2, consulted from scope 1. -/
def innerValidTbl : List Sym := [⟨"identifier", "a", 0, 2, 1, true, .intV 7⟩]

/-- C4 counterexample: `checksym` does not decide among the spec's four
outcomes in the stated precedence.  On a table whose only entry for the
name is still valid at a strictly inner scope, the spec's outcomes
dictate appending a fresh untyped symbol (outcome 4), but `checksym`
returns the existing inner-scope entry and appends nothing. -/
theorem checksym_ne_spec_precedence :
    checksym "a" 1 9 0 innerValidTbl ≠
      specResolveOrDeclare "a" 1 9 0 innerValidTbl ∧
    (checksym "a" 1 9 0 innerValidTbl).1 = innerValidTbl ∧
    (specResolveOrDeclare "a" 1 9 0 innerValidTbl).1 =
      innerValidTbl ++ [addsymbol "a" 1 9] := by
  refine ⟨by decide, by decide, by decide⟩

/-- C4 amended: `checksym` scans in declaration order and returns the
first still-valid entry bearing the name — whatever the scope relation —
leaving the table unchanged; when that entry's scope is strictly outer
than current it returns with the inherited flag (`check_un = 1`); only
when no valid entry matches does it append and return a fresh untyped
symbol at the current scope. -/
theorem checksym_first_valid_match (vname : String) (scope line cu : Int)
    (tb : List Sym) :
    (∀ i, firstValidMatch vname tb = some i →
        (checksym vname scope line cu tb).1 = tb ∧
        (checksym vname scope line cu tb).2.1 = i) ∧
    (firstValidMatch vname tb = none →
        (checksym vname scope line cu tb).1 =
          tb ++ [addsymbol vname scope line] ∧
        (checksym vname scope line cu tb).2.1 = tb.length) ∧
    (∀ i e, firstValidMatch vname tb = some i → tb.get? i = some e →
        e.scope < scope → (checksym vname scope line cu tb).2.2 = 1) := by
  match tb with
  | [] =>
      refine ⟨?_, ?_, ?_⟩
      · intro i hi; simp [firstValidMatch] at hi
      · intro _; simp [checksym]
      · intro i e hi; simp [firstValidMatch] at hi
  | f :: rest =>
      rcases hscan : scanSym vname scope (f :: rest) cu with ⟨found, cu2⟩
      have hfound := scanSym_found vname scope (f :: rest) cu
      rw [hscan] at hfound
      simp only at hfound
      refine ⟨?_, ?_, ?_⟩
      · intro i hi
        have hf : found = some i := hfound.trans hi
        subst hf
        simp [checksym, hscan]
      · intro hnone
        have hf : found = none := hfound.trans hnone
        subst hf
        simp [checksym, hscan]
      · intro i e hi hget hsc
        have houter := scanSym_outer_flag vname scope (f :: rest) cu i e
          hi hget hsc
        rw [hscan] at houter
        simp only at houter
        have hf : found = some i := hfound.trans hi
        subst hf
        subst houter
        simp [checksym, hscan]

/-- Witness for C4 (amended): a table whose only entry is a valid outer
declaration, consulted from scope 1 — the entry is returned, the table
is unchanged, and the inherited flag is set. -/
theorem checksym_first_valid_match_witness :
    firstValidMatch "a" [⟨"identifier", "a", 0, 0, 1, true, .intV 5⟩] =
      some 0 ∧
    (checksym "a" 1 9 0
        [⟨"identifier", "a", 0, 0, 1, true, .intV 5⟩]).1 =
      [⟨"identifier", "a", 0, 0, 1, true, .intV 5⟩] ∧
    (checksym "a" 1 9 0
        [⟨"identifier", "a", 0, 0, 1, true, .intV 5⟩]).2.1 = 0 ∧
    (checksym "a" 1 9 0
        [⟨"identifier", "a", 0, 0, 1, true, .intV 5⟩]).2.2 = 1 := by
  have h := checksym_first_valid_match "a" 1 9 0
    [⟨"identifier", "a", 0, 0, 1, true, .intV 5⟩]
  refine ⟨by decide, (h.1 0 (by decide)).1, (h.1 0 (by decide)).2, ?_⟩
  exact h.2.2 0 ⟨"identifier", "a", 0, 0, 1, true, .intV 5⟩ (by decide)
    (by decide) (by decide)

/-- C5 counterexample: inside the block of `int a = 5; { int a = 6; }`,
after the inner declaration has been processed (it is present as entry
1: scope 1, valid, value 6), resolving `a` still returns entry 0 — the
outer declaration with value 5.  The inner declaration does not shadow
the outer one: the outer entry never becomes unresolvable, contrary to
the claim's "until a same-named inner declaration shadows it". -/
theorem inner_decl_does_not_shadow :
    scnDec2.table.get? 1 =
      some ⟨"identifier", "a", 0, 1, 2, true, .intV 6⟩ ∧
    scnMid.1 = scnDec2.table ∧
    scnMid.2.1 = 0 ∧
    scnDec2.table.get? 0 =
      some ⟨"identifier", "a", 0, 0, 1, true, .intV 5⟩ := by
  refine ⟨by decide, by decide, by decide, by decide⟩

/-- C5 amended: an outer declaration stays resolvable inside inner
scopes — a same-named inner declaration merely appends a second valid
entry and resolution keeps returning the first-declared outer entry —
and closing a scope leaves every entry of a different depth untouched,
so after the block of `int a = 5; { int a = 6; }` closes there was no
error, the inner entry is invalidated (not deleted), and `a` resolves
to the outer declaration with its value still 5. -/
theorem outer_decl_scenario :
    (∀ (s : Int) (tb : List Sym) (i : Nat) (e : Sym),
        tb.get? i = some e → e.scope ≠ s →
        (closeScope s tb).get? i = some e) ∧
    (scnDec1.errors = [] ∧ scnDec2.errors = [] ∧
     scnClosed.get? 0 = some ⟨"identifier", "a", 0, 0, 1, true, .intV 5⟩ ∧
     scnClosed.get? 1 = some ⟨"identifier", "a", 0, 1, 2, false, .intV 6⟩ ∧
     scnAfter.1 = scnClosed ∧ scnAfter.2.1 = 0) := by
  constructor
  · intro s tb i e hget hs
    rw [List.get?_eq_getElem?] at hget ⊢
    simp only [closeScope, List.getElem?_map, hget, Option.map_some]
    simp [hs]
  · refine ⟨by decide, by decide, by decide, by decide, by decide, by decide⟩

/-- Witness for C5 (amended): the preservation conjunct applied to the
outer entry of the scenario table at the closing depth 1. -/
theorem outer_decl_scenario_witness :
    scnDec2.table.get? 0 =
      some ⟨"identifier", "a", 0, 0, 1, true, .intV 5⟩ ∧
    (Sym.scope ⟨"identifier", "a", 0, 0, 1, true, .intV 5⟩ ≠ 1) ∧
    (closeScope 1 scnDec2.table).get? 0 =
      some ⟨"identifier", "a", 0, 0, 1, true, .intV 5⟩ := by
  refine ⟨by decide, by decide, ?_⟩
  exact outer_decl_scenario.1 1 scnDec2.table 0
    ⟨"identifier", "a", 0, 0, 1, true, .intV 5⟩ (by decide) (by decide)

end PBL
